import Mathlib

/-!
Verification development for the PAZy database tools: a shallow embedding of
the pure logic of `src/pazy_scraper.py` and
`src/cross_reference_with_plasticdb.py`, with theorems settling the
specification's claims.

Modelling conventions:
* Network I/O is an oracle: `perform_request_with_retries` takes a function
  from attempt number to `Option String` (`none` models a transport error,
  a non-2xx status, or a timeout — anything the `except` clause catches).
  Elapsed sleep time is returned alongside the result.
* HTML structure is pre-parsed: a table row is a list of cells, each cell
  carrying its stripped text and its list of anchors (href plus anchor text),
  which is exactly the data BeautifulSoup hands the row loop.
* MD5 is an uninterpreted parameter `hash : String → String`; none of the
  verified logic depends on anything but equality of digests.
* Python `str.splitlines` / `"\n".join` are modelled for LF-separated text.
-/

namespace PAZy

/-! ### String primitives

Executable models of the Python string operations the scripts use
(`lower`, `upper`, `startswith`, `in`, `split`, `strip`, `join`),
written by structural recursion on the character list so that concrete
instances evaluate inside the kernel. The case maps cover ASCII, which is
all the scraped identifiers and sequences contain. -/

/-- Python `str.lower` on one ASCII character. -/
def pyLowerChar (c : Char) : Char :=
  if 'A' ≤ c && c ≤ 'Z' then Char.ofNat (c.toNat + 32) else c

/-- Python `str.upper` on one ASCII character. -/
def pyUpperChar (c : Char) : Char :=
  if 'a' ≤ c && c ≤ 'z' then Char.ofNat (c.toNat - 32) else c

/-- Python `str.lower`. -/
def pyLower (s : String) : String := ⟨s.data.map pyLowerChar⟩

/-- Python `str.upper`. -/
def pyUpper (s : String) : String := ⟨s.data.map pyUpperChar⟩

/-- The first list is a prefix of the second. -/
def isPrefixChars : List Char → List Char → Bool
  | [], _ => true
  | _ :: _, [] => false
  | p :: ps, c :: cs => p == c && isPrefixChars ps cs

/-- Python `s.startswith(pre)`. -/
def pyStartsWith (s pre : String) : Bool := isPrefixChars pre.data s.data

/-- Substring scan for `containsSub`. -/
def containsAux (sub : List Char) : List Char → Bool
  | [] => isPrefixChars sub []
  | c :: rest => isPrefixChars sub (c :: rest) || containsAux sub rest

/-- Python `sub in s`. -/
def containsSub (s sub : String) : Bool := containsAux sub.data s.data

/-- Accumulating worker for `splitOnChar`. -/
def splitOnCharAux (sep : Char) : List Char → List Char → List String
  | [], acc => [String.mk acc.reverse]
  | c :: rest, acc =>
    if c == sep then String.mk acc.reverse :: splitOnCharAux sep rest []
    else splitOnCharAux sep rest (c :: acc)

/-- Python `s.split(sep)` for a one-character separator: always returns at
least one piece, with empty pieces between adjacent separators. -/
def splitOnChar (sep : Char) (s : String) : List String := splitOnCharAux sep s.data []

/-- Python `sep.join(parts)`. -/
def joinWith (sep : String) : List String → String
  | [] => ""
  | [x] => x
  | x :: rest => x ++ sep ++ joinWith sep rest

/-- The ASCII whitespace Python `str.strip` removes. -/
def pyIsSpace (c : Char) : Bool :=
  c == ' ' || c == '\t' || c == '\n' || c == '\r' || c == '\x0b' || c == '\x0c'

/-- Python `str.strip()`. -/
def pyStrip (s : String) : String :=
  ⟨((s.data.dropWhile pyIsSpace).reverse.dropWhile pyIsSpace).reverse⟩

/-- A hyperlink inside a table cell: `href` attribute and stripped text. -/
structure Anchor where
  href : String
  text : String
deriving DecidableEq, Repr

/-- One table cell: its stripped text plus the anchors it contains. -/
structure Cell where
  text : String
  anchors : List Anchor
deriving DecidableEq, Repr

/-- One table row, as the list of its `td`/`th` cells. -/
structure Row where
  cells : List Cell
deriving DecidableEq, Repr

/-- An enzyme record as built by the row loop of `fetch_enzyme_data`. -/
structure EnzymeRecord where
  polymer : String
  polymer_id : String
  organism : String
  enzyme_name : String
  ec_number : String
  references : String
  database_type : String
  database_id : String
  database_link : String
deriving DecidableEq, Repr

/-- The body of the retry loop of `perform_request_with_retries`,
lines 49-59 of `pazy_scraper.py`, with the iterations still to run counted
down structurally: `remaining` is `max_retries - attempt + 1`, so
`attempt < max_retries` is `remaining > 1`. `oracle k` is the outcome of
attempt number `k` (1-based; `none` models any caught exception); the
result is paired with the total seconds slept between attempts. On success
the attempt's text is returned at once; on failure, when further attempts
remain, `base_delay * 2 ^ (attempt - 1)` seconds are slept first. -/
def retryLoop (oracle : Nat → Option String) (base_delay : Nat) :
    (attempt remaining : Nat) → Option String × Nat
  | _, 0 => (none, 0)
  | attempt, remaining + 1 =>
    match oracle attempt with
    | some text => (some text, 0)
    | none =>
      if remaining = 0 then (none, 0)
      else
        let d := base_delay * 2 ^ (attempt - 1)
        let rest := retryLoop oracle base_delay (attempt + 1) remaining
        (rest.1, d + rest.2)

/-- `perform_request_with_retries`, lines 47-61: run the attempts numbered
`1` to `max_retries` (`range(1, max_retries + 1)`); exhaustion returns
`None` — the exception never escapes. -/
def perform_request_with_retries (oracle : Nat → Option String)
    (max_retries base_delay : Nat) : Option String × Nat :=
  retryLoop oracle base_delay 1 max_retries

/-- An ASCII uppercase letter, the character class `[A-Z]` of the
polymer-abbreviation regex. -/
def isUpperAlpha (c : Char) : Bool := 'A' ≤ c && c ≤ 'Z'

/-- `re.search(r"\(([A-Z]+)\)", polymer_name)`, line 104: scan start
positions left to right; a match needs an opening parenthesis, a nonempty
maximal run of uppercase letters, then a closing parenthesis (greedy `+`
cannot backtrack successfully here, since any shorter run is followed by an
uppercase letter, not the closing parenthesis). Returns the captured group. -/
def findParenAbbrAux : List Char → Option String
  | [] => none
  | '(' :: rest =>
    let run := rest.takeWhile isUpperAlpha
    if run.isEmpty then findParenAbbrAux rest
    else
      match rest.drop run.length with
      | ')' :: _ => some (String.mk run)
      | _ => findParenAbbrAux rest
  | _ :: rest => findParenAbbrAux rest

/-- The regex search over a polymer name. -/
def findParenAbbr (s : String) : Option String := findParenAbbrAux s.toList

/-- Polymer-ID derivation, lines 104-112 of `pazy_scraper.py`: parenthetical
uppercase abbreviation first, then the two case-insensitive name prefixes,
then the first three characters uppercased. -/
def derive_polymer_id (polymer_name : String) : String :=
  match findParenAbbr polymer_name with
  | some abbr => abbr
  | none =>
    if pyStartsWith (pyLower polymer_name) "polyethylene terephthalate" then "PET"
    else if pyStartsWith (pyLower polymer_name) "polyurethane" then "PUR"
    else pyUpper ⟨polymer_name.data.take 3⟩

/-- True when an anchor classifies as UniProt: its href contains
"uniprot" (case-insensitively), line 128. -/
def isUniprot (a : Anchor) : Bool :=
  containsSub (pyLower a.href) "uniprot"

/-- True when an anchor classifies as GenBank, line 133. -/
def isGenbank (a : Anchor) : Bool :=
  containsSub (pyLower a.href) "genbank" || containsSub (pyLower a.href) "ncbi.nlm.nih.gov"

/-- True when an anchor classifies as MGnify, lines 138-140. -/
def isMgnify (a : Anchor) : Bool :=
  containsSub (pyLower a.href) "ebi.ac.uk" || containsSub (pyLower a.text) "mgyp"

/-- The identity-cell scan, lines 125-148 of `pazy_scraper.py`: fields start
empty; each anchor is tried against the three branches in source order (each
branch sets the three fields and `break`s), and the fallback branch resets
all three fields to empty and continues with the next anchor. -/
def classifyLoop (anchors : List Anchor) (db : String × String × String) :
    String × String × String :=
  match anchors with
  | [] => db
  | a :: rest =>
    if isUniprot a then ("UniProt", (splitOnChar '_' a.text).headD "", a.href)
    else if isGenbank a then ("GenBank", a.text, a.href)
    else if isMgnify a then ("MGnify", a.text, a.href)
    else classifyLoop rest ("", "", "")

/-- An anchor triggers one of the three classifying branches. -/
def classifies (a : Anchor) : Bool := isUniprot a || isGenbank a || isMgnify a

/-- The (type, id, link) triple a classifying anchor yields, re-tested in
branch order: UniProt keeps the anchor text before the first underscore. -/
def classifyAnchor (a : Anchor) : String × String × String :=
  if isUniprot a then ("UniProt", (splitOnChar '_' a.text).headD "", a.href)
  else if isGenbank a then ("GenBank", a.text, a.href)
  else ("MGnify", a.text, a.href)

/-- The database identity extracted from an identity cell, starting from the
empty triple of line 125. -/
def extractDbIdentity (anchors : List Anchor) : String × String × String :=
  classifyLoop anchors ("", "", "")

/-- `host_enzyme_gene.split(",", 1)` with both parts stripped, lines 150-157:
a comma splits into organism and enzyme name; otherwise everything is the
organism and the enzyme name stays empty. -/
def splitHostEnzyme (host : String) : String × String :=
  match splitOnChar ',' host with
  | [] => (host, "")
  | [only] => (only, "")
  | first :: restParts => (pyStrip first, pyStrip (joinWith "," restParts))

/-- Build the enzyme record for one table row with at least 6 cells,
lines 119-171. `getD` is safe under the length guard of the caller. -/
def recordOfRow (polymer_name polymer_id : String) (row : Row) : EnzymeRecord :=
  let host := (row.cells.getD 0 ⟨"", []⟩).text
  let ec := (row.cells.getD 1 ⟨"", []⟩).text
  let refs := joinWith "; " (((row.cells.getD 2 ⟨"", []⟩).anchors).map Anchor.text)
  let dbt := extractDbIdentity ((row.cells.getD 3 ⟨"", []⟩).anchors)
  let oe := splitHostEnzyme host
  { polymer := polymer_name
    polymer_id := polymer_id
    organism := oe.1
    enzyme_name := oe.2
    ec_number := ec
    references := refs
    database_type := dbt.1
    database_id := dbt.2.1
    database_link := dbt.2.2 }

/-- The row loop of `fetch_enzyme_data`, lines 114-172: skip the first row
(`rows[1:]`), then skip every row with fewer than 6 cells, appending one
record per surviving row in document order. -/
def extract_enzymes (polymer_name : String) (rows : List Row) : List EnzymeRecord :=
  let polymer_id := derive_polymer_id polymer_name
  (rows.drop 1).filterMap fun row =>
    if row.cells.length < 6 then none
    else some (recordOfRow polymer_name polymer_id row)

/-- The LF newline as a string. -/
def nl : String := "\n"

/-- Python `str.splitlines` restricted to LF-separated text: split on every
newline, with no trailing empty piece for a trailing newline, and the empty
string giving the empty list. -/
def pySplitlines (s : String) : List String :=
  if s = "" then []
  else
    let parts := splitOnChar (Char.ofNat 10) s
    if parts.getLast? = some "" then parts.dropLast else parts

/-- A record of the assembler's success list: the enzyme, the internal ID it
received, and its rewritten FASTA block. -/
structure ProcessedEnzyme where
  record : EnzymeRecord
  internal_id : Nat
  fasta : String
deriving DecidableEq, Repr

/-- The mutable state of the sequence-compilation loop of `main`,
lines 218-221 of `pazy_scraper.py`. -/
structure AsmState where
  successful : List ProcessedEnzyme
  missing : Nat
  counter : Nat
  seqOut : String
deriving DecidableEq, Repr

/-- The header rewrite of lines 227-232: when the first line of the fetched
text starts with the FASTA marker, prepend the internal ID and polymer ID to
its body; otherwise the lines are left untouched. -/
def rewriteLines (counter : Nat) (polymer_id : String) : List String → List String
  | [] => []
  | l0 :: rest =>
    if pyStartsWith l0 ">" then
      (">" ++ toString counter ++ "|" ++ polymer_id ++ "_" ++ String.mk (l0.data.drop 1)) :: rest
    else l0 :: rest

/-- One iteration of the loop of lines 223-243 of `pazy_scraper.py`: a pair
of the enzyme record and the text `fetch_fasta` returned for it (empty on
failure). Non-empty text: rewrite the header, record the enzyme with the
current counter value, bump the counter, append the block plus a newline to
the sequence output. Empty text: bump the missing-sequence counter only. -/
def processEnzyme (st : AsmState) (p : EnzymeRecord × String) : AsmState :=
  let fasta_text := p.2
  if fasta_text ≠ "" then
    let lines := pySplitlines fasta_text
    let modified := joinWith nl (rewriteLines st.counter p.1.polymer_id lines)
    { successful := st.successful ++ [⟨p.1, st.counter, modified⟩]
      missing := st.missing
      counter := st.counter + 1
      seqOut := st.seqOut ++ modified ++ nl }
  else { st with missing := st.missing + 1 }

/-- The whole sequence-compilation pass over all enzyme records in processing
order, starting from counter 1 and empty outputs (lines 218-243). -/
def assemble (l : List (EnzymeRecord × String)) : AsmState :=
  l.foldl processEnzyme ⟨[], 0, 1, ""⟩

/-- A FASTA record as Biopython parses it: `record.id`, `record.description`
and the sequence text. -/
structure FastaRec where
  id : String
  description : String
  seq : String
deriving DecidableEq, Repr

/-- A bucket entry of the PlasticDB lookup: a 4-tuple retaining the raw
(uppercased) sequence when `verify_exact` was set at build time, a 3-tuple
otherwise (lines 42-47 of `cross_reference_with_plasticdb.py`). -/
inductive RefEntry where
  | short (id description : String) (len : Nat)
  | long (id description : String) (len : Nat) (seq : String)
deriving DecidableEq, Repr

/-- The lookup dictionary as an association list from digest to bucket;
bucket order is insertion order, as with `defaultdict(list)` appends. -/
abbrev Lookup := List (String × List RefEntry)

/-- Membership test `seq_hash in seq_hash_to_records`. -/
def hasKey (L : Lookup) (k : String) : Bool :=
  (L.find? fun p => p.1 == k).isSome

/-- Bucket read: the entry list stored under a digest, empty if absent. -/
def getBucket (L : Lookup) (k : String) : List RefEntry :=
  match L.find? fun p => p.1 == k with
  | some p => p.2
  | none => []

/-- `seq_hash_to_records[seq_hash].append(entry)`: extend the bucket if the
key exists, otherwise create a fresh singleton bucket. -/
def addToBucket (L : Lookup) (k : String) (e : RefEntry) : Lookup :=
  match L with
  | [] => [(k, [e])]
  | p :: rest =>
    if p.1 == k then (p.1, p.2 ++ [e]) :: rest
    else p :: addToBucket rest k e

/-- The bucket entry built for one record, lines 42-47: sequence already
uppercased by the caller. -/
def entryOf (verify_exact : Bool) (r : FastaRec) (sequence : String) : RefEntry :=
  if verify_exact then .long r.id r.description sequence.length sequence
  else .short r.id r.description sequence.length

/-- One iteration of the `create_plasticdb_lookup` loop, lines 22-47:
uppercase the sequence, hash it; in dedup mode a digest already present
skips the record and counts a duplicate; otherwise append the entry. -/
def lookupStep (hash : String → String) (verify_exact no_duplicates : Bool)
    (acc : Lookup × Nat) (r : FastaRec) : Lookup × Nat :=
  let sequence := pyUpper r.seq
  let seq_hash := hash sequence
  if no_duplicates && hasKey acc.1 seq_hash then (acc.1, acc.2 + 1)
  else (addToBucket acc.1 seq_hash (entryOf verify_exact r sequence), acc.2)

/-- `create_plasticdb_lookup`, lines 9-57: stream the reference records in
order; returns the lookup and the duplicate counter. -/
def create_plasticdb_lookup (hash : String → String)
    (verify_exact no_duplicates : Bool) (records : List FastaRec) : Lookup × Nat :=
  records.foldl (lookupStep hash verify_exact no_duplicates) ([], 0)

/-- One output row of the cross-reference TSV (line 102). -/
structure MatchRow where
  pazy_id : String
  pazy_description : String
  plasticdb_id : String
  plasticdb_desc : String
  seq_len : Nat
deriving DecidableEq, Repr

/-- The per-candidate body of the bucket loop, lines 90-104: under
`verify_exact` the 4-tuple is unpacked (a 3-tuple raises, modelled as
`none`) and content inequality skips the candidate; otherwise the 3-tuple
is unpacked (a 4-tuple raises). Surviving candidates each emit one row, in
bucket order. -/
def processBucket (verify_exact : Bool) (pazy_id pazy_description pazy_seq : String) :
    List RefEntry → Option (List MatchRow)
  | [] => some []
  | e :: rest =>
    if verify_exact then
      match e with
      | .long pid pdesc plen pseq =>
        if pazy_seq ≠ pseq then processBucket verify_exact pazy_id pazy_description pazy_seq rest
        else (processBucket verify_exact pazy_id pazy_description pazy_seq rest).map
          (⟨pazy_id, pazy_description, pid, pdesc, plen⟩ :: ·)
      | .short _ _ _ => none
    else
      match e with
      | .short pid pdesc plen =>
        (processBucket verify_exact pazy_id pazy_description pazy_seq rest).map
          (⟨pazy_id, pazy_description, pid, pdesc, plen⟩ :: ·)
      | .long _ _ _ _ => none

/-- `find_matches_in_pazy`, lines 60-111: stream the query records, hash each
uppercased sequence, and when the digest is present walk its bucket; the
result is the concatenated row stream (`none` models the `ValueError` a
mis-shaped tuple unpacking would raise). -/
def find_matches_in_pazy (hash : String → String) (L : Lookup)
    (verify_exact : Bool) : List FastaRec → Option (List MatchRow)
  | [] => some []
  | q :: rest =>
    let pazy_seq := pyUpper q.seq
    let seq_hash := hash pazy_seq
    let rows :=
      if hasKey L seq_hash then
        processBucket verify_exact q.id q.description pazy_seq (getBucket L seq_hash)
      else some []
    match rows with
    | none => none
    | some rs => (find_matches_in_pazy hash L verify_exact rest).map (rs ++ ·)

/-- The driver `main`, lines 114-145: the same `verify_exact` flag is passed
to both the lookup construction and the matching phase. -/
def crossref_main (hash : String → String) (verify_exact no_duplicates : Bool)
    (plasticdb pazy : List FastaRec) : Option (List MatchRow) :=
  find_matches_in_pazy hash
    (create_plasticdb_lookup hash verify_exact no_duplicates plasticdb).1
    verify_exact pazy

/-! ### Spec-side descriptions, used to state the claims -/

/-- A bucket entry matches the `verify_exact` flag it should have been built
under: 4-tuples for `true`, 3-tuples for `false`. -/
def matchesFlag (verify_exact : Bool) : RefEntry → Bool
  | .short _ _ _ => verify_exact == false
  | .long _ _ _ _ => verify_exact == true

/-- The output row a reference entry yields for a given query. -/
def rowFor (qid qdesc : String) : RefEntry → MatchRow
  | .short pid pdesc plen => ⟨qid, qdesc, pid, pdesc, plen⟩
  | .long pid pdesc plen _ => ⟨qid, qdesc, pid, pdesc, plen⟩

/-- The rows the specification says one bucket contributes for one query:
under exact verification, one row per entry whose stored raw sequence equals
the query sequence; otherwise one row per entry, in bucket order. -/
def bucketRowsSpec (verify_exact : Bool) (qid qdesc qseq : String)
    (entries : List RefEntry) : List MatchRow :=
  if verify_exact then
    entries.filterMap fun e =>
      match e with
      | .long pid pdesc plen pseq =>
        if qseq = pseq then some ⟨qid, qdesc, pid, pdesc, plen⟩ else none
      | .short _ _ _ => none
  else entries.map (rowFor qid qdesc)

/-- The rows the specification predicts for a whole query stream against a
given lookup. -/
def matchRowsSpec (hash : String → String) (L : Lookup) (verify_exact : Bool)
    (queries : List FastaRec) : List MatchRow :=
  (queries.map fun q =>
    let qseq := pyUpper q.seq
    if hasKey L (hash qseq) then
      bucketRowsSpec verify_exact q.id q.description qseq (getBucket L (hash qseq))
    else []).flatten

/-- The number of reference records skipped because the hash of their
uppercased sequence was already present when they were processed, starting
from a given set of already-seen digests. -/
def dupCountSpec (hash : String → String) : List FastaRec → List String → Nat
  | [], _ => 0
  | r :: rest, seen =>
    let k := hash (pyUpper r.seq)
    if seen.contains k then 1 + dupCountSpec hash rest seen
    else dupCountSpec hash rest (k :: seen)

/-- An enzyme record with every field set to the same tag, for concrete
scenarios. -/
def mkEnz (tag : String) : EnzymeRecord := ⟨tag, tag, tag, tag, tag, tag, tag, tag, tag⟩

/-- A well-formed table row: six identical cells with no anchors. -/
def fullRow : Row := ⟨List.replicate 6 ⟨"x", []⟩⟩

/-- A malformed table row: a single cell. -/
def shortRow : Row := ⟨[⟨"x", []⟩]⟩

/-! ### Retry fetcher -/

/-- If the first success is attempt `j` (within bounds), the loop started at
`attempt` returns that attempt's text having slept the geometric series
between `attempt` and `j - 1`. -/
theorem retryLoop_first_success (oracle : Nat → Option String) (base : Nat) :
    ∀ (remaining attempt j : Nat) (t : String),
      1 ≤ attempt → attempt ≤ j → j < attempt + remaining →
      oracle j = some t →
      (∀ i, attempt ≤ i → i < j → oracle i = none) →
      retryLoop oracle base attempt remaining =
        (some t, base * (2 ^ (j - 1) - 2 ^ (attempt - 1))) := by
  intro remaining
  induction remaining with
  | zero => intro attempt j t h1 h2 h3 _ _; omega
  | succ n ih =>
    intro attempt j t h1 h2 h3 hj hfail
    by_cases haj : attempt = j
    · subst haj
      simp [retryLoop, hj]
    · have hlt : attempt < j := lt_of_le_of_ne h2 haj
      have hoa : oracle attempt = none := hfail attempt le_rfl hlt
      have hn0 : ¬ n = 0 := by omega
      rw [show retryLoop oracle base attempt (n + 1) =
            (if n = 0 then ((none : Option String), 0)
             else
               let d := base * 2 ^ (attempt - 1)
               let rest := retryLoop oracle base (attempt + 1) n
               (rest.1, d + rest.2)) by simp [retryLoop, hoa]]
      rw [if_neg hn0]
      rw [ih (attempt + 1) j t (by omega) (by omega) (by omega) hj
        (fun i hi1 hi2 => hfail i (by omega) hi2)]
      have e0 : attempt + 1 - 1 = attempt := by omega
      have e1 : 2 ^ attempt = 2 ^ (attempt - 1) + 2 ^ (attempt - 1) := by
        conv_lhs => rw [show attempt = (attempt - 1) + 1 by omega]
        rw [pow_succ]
        omega
      have e2 : 2 ^ attempt ≤ 2 ^ (j - 1) := Nat.pow_le_pow_right (by norm_num) (by omega)
      have e3 : 2 ^ (attempt - 1) + (2 ^ (j - 1) - 2 ^ attempt) =
          2 ^ (j - 1) - 2 ^ (attempt - 1) := by
        generalize hA : 2 ^ (attempt - 1) = A at e1 ⊢
        generalize hB : 2 ^ (j - 1) = B at e2 ⊢
        generalize hC : 2 ^ attempt = C at e1 e2
        omega
      simp only [e0]
      rw [← Nat.left_distrib, e3]

/-- If every attempt in range fails, the loop reports `none`. -/
theorem retryLoop_all_fail (oracle : Nat → Option String) (base : Nat) :
    ∀ (remaining attempt : Nat),
      (∀ i, attempt ≤ i → i < attempt + remaining → oracle i = none) →
      (retryLoop oracle base attempt remaining).1 = none := by
  intro remaining
  induction remaining with
  | zero => intro attempt _; rfl
  | succ n ih =>
    intro attempt h
    have hoa : oracle attempt = none := h attempt le_rfl (by omega)
    by_cases hn : n = 0
    · subst hn; simp [retryLoop, hoa]
    · rw [show retryLoop oracle base attempt (n + 1) =
            (if n = 0 then ((none : Option String), 0)
             else
               let d := base * 2 ^ (attempt - 1)
               let rest := retryLoop oracle base (attempt + 1) n
               (rest.1, d + rest.2)) by simp [retryLoop, hoa]]
      rw [if_neg hn]
      simpa using ih (attempt + 1) (fun i h1 h2 => h i (by omega) (by omega))

/-- C5: `perform_request_with_retries` returns the text of the first
successful attempt; after `maxAttempts` consecutive failures it returns
`none` (the model of returning null rather than raising); the sleeps after
failed attempts `1 .. j-1` sum to `baseDelay * (2 ^ (j-1) - 1)`, each being
`baseDelay * 2 ^ (k-1)`; and with 3 attempts, base delay 1, failing twice
then succeeding, the content is returned after a total wait of 3. -/
theorem retry_contract :
    (∀ (oracle : Nat → Option String) (maxAttempts baseDelay j : Nat) (t : String),
        1 ≤ j → j ≤ maxAttempts → oracle j = some t →
        (∀ i, 1 ≤ i → i < j → oracle i = none) →
        perform_request_with_retries oracle maxAttempts baseDelay =
          (some t, baseDelay * (2 ^ (j - 1) - 1))) ∧
    (∀ (oracle : Nat → Option String) (maxAttempts baseDelay : Nat),
        (∀ i, 1 ≤ i → i ≤ maxAttempts → oracle i = none) →
        (perform_request_with_retries oracle maxAttempts baseDelay).1 = none) ∧
    perform_request_with_retries (fun k => if k ≤ 2 then none else some "ok") 3 1 =
      (some "ok", 3) := by
  refine ⟨?_, ?_, by decide⟩
  · intro oracle m b j t h1 h2 hj hfail
    have h := retryLoop_first_success oracle b m 1 j t le_rfl h1 (by omega) hj
      (fun i hi1 hi2 => hfail i hi1 hi2)
    simpa [perform_request_with_retries] using h
  · intro oracle m b h
    exact retryLoop_all_fail oracle b m 1 (fun i h1 h2 => h i h1 (by omega))

/-- C5 witness: the first-success contract applied to the concrete oracle
that fails twice and then succeeds, with 3 attempts and base delay 1. -/
theorem retry_contract_witness :
    perform_request_with_retries (fun k => if k ≤ 2 then none else some "ok") 3 1 =
      (some "ok", 1 * (2 ^ (3 - 1) - 1)) :=
  retry_contract.1 (fun k => if k ≤ 2 then none else some "ok") 3 1 3 "ok"
    (by decide) (by decide) rfl
    (fun i h1 h2 => by interval_cases i <;> rfl)

/-! ### Table extraction -/

/-- C6: the row loop skips the first table row unconditionally and drops
every row with fewer than 6 cells, so the record count is the count of
at-least-6-cell rows after the header; in particular a table whose header is
followed by 5 full rows and 2 malformed rows yields exactly 5 records. -/
theorem table_row_filtering :
    (∀ (polymer_name : String) (rows : List Row),
        (extract_enzymes polymer_name rows).length =
          ((rows.drop 1).filter fun r => decide (6 ≤ r.cells.length)).length) ∧
    (extract_enzymes "Nylon"
        [fullRow, fullRow, shortRow, fullRow, fullRow, shortRow, fullRow, fullRow]).length
      = 5 := by
  refine ⟨?_, by decide⟩
  intro pn rows
  simp only [extract_enzymes]
  induction rows.drop 1 with
  | nil => rfl
  | cons r rest ih =>
    by_cases h : r.cells.length < 6
    · have h6 : ¬ 6 ≤ r.cells.length := by omega
      simp [List.filterMap_cons, List.filter_cons, h, h6, ih]
    · have h6 : 6 ≤ r.cells.length := by omega
      simp [List.filterMap_cons, List.filter_cons, h, h6, ih]

/-- C7: the polymer ID comes from the first matching rule of the ordered
chain — parenthetical uppercase abbreviation, then the
"polyethylene terephthalate" prefix giving "PET", then the "polyurethane"
prefix giving "PUR", then the first three characters uppercased — with the
four spec examples evaluated. -/
theorem polymer_id_rules :
    (∀ (name abbr : String), findParenAbbr name = some abbr →
        derive_polymer_id name = abbr) ∧
    (∀ name : String, findParenAbbr name = none →
        pyStartsWith (pyLower name) "polyethylene terephthalate" = true →
        derive_polymer_id name = "PET") ∧
    (∀ name : String, findParenAbbr name = none →
        pyStartsWith (pyLower name) "polyethylene terephthalate" = false →
        pyStartsWith (pyLower name) "polyurethane" = true →
        derive_polymer_id name = "PUR") ∧
    (∀ name : String, findParenAbbr name = none →
        pyStartsWith (pyLower name) "polyethylene terephthalate" = false →
        pyStartsWith (pyLower name) "polyurethane" = false →
        derive_polymer_id name = pyUpper ⟨name.data.take 3⟩) ∧
    derive_polymer_id "Polyethylene (PE)" = "PE" ∧
    derive_polymer_id "Polyethylene terephthalate" = "PET" ∧
    derive_polymer_id "Polyurethane foam" = "PUR" ∧
    derive_polymer_id "Nylon" = "NYL" := by
  refine ⟨?_, ?_, ?_, ?_, by decide, by decide, by decide, by decide⟩
  · intro name abbr h; simp [derive_polymer_id, h]
  · intro name h1 h2; simp [derive_polymer_id, h1, h2]
  · intro name h1 h2 h3; simp [derive_polymer_id, h1, h2, h3]
  · intro name h1 h2 h3; simp [derive_polymer_id, h1, h2, h3]

/-- C7 witness: the abbreviation rule applied to the first spec example. -/
theorem polymer_id_rules_witness :
    derive_polymer_id "Polyethylene (PE)" = "PE" :=
  polymer_id_rules.1 "Polyethylene (PE)" "PE" (by decide)

/-! ### Database-identity classification -/

/-- The identity-cell scan returns the classification of the first anchor
satisfying one of the three branch tests, and the empty triple when no
anchor does. -/
theorem extractDbIdentity_spec (anchors : List Anchor) :
    extractDbIdentity anchors =
      ((anchors.find? classifies).map classifyAnchor).getD ("", "", "") := by
  induction anchors with
  | nil => rfl
  | cons a rest ih =>
    by_cases h1 : isUniprot a
    · have hc : classifies a = true := by simp [classifies, h1]
      simp [extractDbIdentity, classifyLoop, classifyAnchor,
        List.find?_cons_of_pos _ hc, h1]
    · by_cases h2 : isGenbank a
      · have hc : classifies a = true := by simp [classifies, h2]
        simp [extractDbIdentity, classifyLoop, classifyAnchor,
          List.find?_cons_of_pos _ hc, h1, h2]
      · by_cases h3 : isMgnify a
        · have hc : classifies a = true := by simp [classifies, h3]
          simp [extractDbIdentity, classifyLoop, classifyAnchor,
            List.find?_cons_of_pos _ hc, h1, h2, h3]
        · have hc : ¬ classifies a = true := by simp [classifies, h1, h2, h3]
          rw [List.find?_cons_of_neg _ hc]
          rw [show extractDbIdentity (a :: rest) = extractDbIdentity rest by
            simp [extractDbIdentity, classifyLoop, h1, h2, h3]]
          exact ih

/-- C2: the database classification of an identity cell is that of the first
anchor classifying as UniProt, GenBank or MGnify, the scan stopping there:
whatever follows a first classified anchor — in particular a later
non-matching anchor — cannot overwrite its classification, and a cell with
no classifying anchor leaves all three fields empty. -/
theorem db_classification_first_match :
    (∀ anchors : List Anchor,
        extractDbIdentity anchors =
          ((anchors.find? classifies).map classifyAnchor).getD ("", "", "")) ∧
    (∀ (pre : List Anchor) (a : Anchor) (suf : List Anchor),
        (∀ b ∈ pre, classifies b = false) → classifies a = true →
        extractDbIdentity (pre ++ a :: suf) = classifyAnchor a) ∧
    (∀ anchors : List Anchor, (∀ b ∈ anchors, classifies b = false) →
        extractDbIdentity anchors = ("", "", "")) := by
  refine ⟨extractDbIdentity_spec, ?_, ?_⟩
  · intro pre a suf hpre ha
    rw [extractDbIdentity_spec]
    have : (pre ++ a :: suf).find? classifies = some a := by
      induction pre with
      | nil => simp [List.find?_cons_of_pos _ ha]
      | cons b pre' ih =>
        have hb : ¬ classifies b = true := by
          simp [hpre b (List.mem_cons_self b pre')]
        rw [List.cons_append, List.find?_cons_of_neg _ hb]
        exact ih fun x hx => hpre x (List.mem_cons_of_mem b hx)
    simp [this]
  · intro anchors h
    rw [extractDbIdentity_spec]
    have : anchors.find? classifies = none := by
      rw [List.find?_eq_none]
      intro x hx
      simp [h x hx]
    simp [this]

/-- C2 witness: a non-matching anchor, then a UniProt anchor, then another
non-matching anchor — the UniProt classification survives. -/
theorem db_classification_first_match_witness :
    extractDbIdentity
      [⟨"https://z.org", "b"⟩, ⟨"https://www.uniprot.org/P1", "P12345_BACSU"⟩,
        ⟨"https://q.org", "c"⟩]
      = ("UniProt", "P12345", "https://www.uniprot.org/P1") :=
  db_classification_first_match.2.1 [⟨"https://z.org", "b"⟩]
    ⟨"https://www.uniprot.org/P1", "P12345_BACSU"⟩ [⟨"https://q.org", "c"⟩]
    (by decide) (by decide)

/-! ### Internal-ID assignment -/

/-- Generalized fold invariant for the sequence-compilation loop: starting
from any state, the successes gained are exactly the records with non-empty
fetch text, their IDs are consecutive from the starting counter, and the
missing counter grows by the number of empty fetch results. -/
theorem assemble_fold (l : List (EnzymeRecord × String)) :
    ∀ st : AsmState,
      ((l.foldl processEnzyme st).successful.map (fun p => p.internal_id)
        = st.successful.map (fun p => p.internal_id)
          ++ List.range' st.counter (l.countP fun p => p.2 != "")) ∧
      ((l.foldl processEnzyme st).successful.map (fun p => p.record)
        = st.successful.map (fun p => p.record)
          ++ (l.filter fun p => p.2 != "").map Prod.fst) ∧
      ((l.foldl processEnzyme st).missing
        = st.missing + l.countP fun p => p.2 == "") ∧
      ((l.foldl processEnzyme st).counter
        = st.counter + l.countP fun p => p.2 != "") := by
  induction l with
  | nil => intro st; simp
  | cons p rest ih =>
    intro st
    simp only [List.foldl_cons]
    obtain ⟨i1, i2, i3, i4⟩ := ih (processEnzyme st p)
    by_cases h : p.2 = ""
    · have hsucc : (processEnzyme st p).successful = st.successful := by
        simp [processEnzyme, h]
      have hcnt : (processEnzyme st p).counter = st.counter := by
        simp [processEnzyme, h]
      have hmiss : (processEnzyme st p).missing = st.missing + 1 := by
        simp [processEnzyme, h]
      rw [hsucc] at i1 i2
      rw [hcnt] at i1 i4
      rw [hmiss] at i3
      refine ⟨?_, ?_, ?_, ?_⟩
      · simp [List.countP_cons, List.filter_cons, h, i1, i2, i3, i4]
      · simp [List.countP_cons, List.filter_cons, h, i1, i2, i3, i4]
      · simp [List.countP_cons, List.filter_cons, h, i1, i2, i3, i4]
        omega
      · simp [List.countP_cons, List.filter_cons, h, i1, i2, i3, i4]
    · have hsucc : (processEnzyme st p).successful = st.successful ++
          [⟨p.1, st.counter,
            joinWith nl (rewriteLines st.counter p.1.polymer_id (pySplitlines p.2))⟩] := by
        simp [processEnzyme, h]
      have hcnt : (processEnzyme st p).counter = st.counter + 1 := by
        simp [processEnzyme, h]
      have hmiss : (processEnzyme st p).missing = st.missing := by
        simp [processEnzyme, h]
      rw [hsucc] at i1 i2
      rw [hcnt] at i1 i4
      rw [hmiss] at i3
      refine ⟨?_, ?_, ?_, ?_⟩
      · rw [i1]
        simp [List.countP_cons, h, List.range'_succ]
      · rw [i2]
        simp [List.filter_cons, h]
      · rw [i3]
        simp [List.countP_cons, h]
      · rw [i4]
        simp [List.countP_cons, h]
        omega

/-- C1: over any run, internal IDs go only to records whose fetched sequence
text is non-empty, as consecutive integers starting at 1 in processing order
(one shared counter); an empty resolution increments the missing counter and
consumes no ID. With successes at positions 1, 3, 4 and a failure at
position 2, IDs 1, 2, 3 go to records 1, 3, 4. -/
theorem internal_id_assignment :
    (∀ l : List (EnzymeRecord × String),
        (assemble l).successful.map (fun p => p.internal_id)
            = List.range' 1 (l.countP fun p => p.2 != "") ∧
        (assemble l).successful.map (fun p => p.record)
            = (l.filter fun p => p.2 != "").map Prod.fst ∧
        (assemble l).missing = l.countP fun p => p.2 == "") ∧
    ((assemble [(mkEnz "e1", "s1"), (mkEnz "e2", ""), (mkEnz "e3", "s3"),
          (mkEnz "e4", "s4")]).successful.map (fun p => (p.internal_id, p.record))
        = [(1, mkEnz "e1"), (2, mkEnz "e3"), (3, mkEnz "e4")] ∧
      (assemble [(mkEnz "e1", "s1"), (mkEnz "e2", ""), (mkEnz "e3", "s3"),
          (mkEnz "e4", "s4")]).missing = 1) := by
  refine ⟨?_, by decide, by decide⟩
  intro l
  obtain ⟨i1, i2, i3, _⟩ := assemble_fold l ⟨[], 0, 1, ""⟩
  exact ⟨by simpa [assemble] using i1, by simpa [assemble] using i2,
    by simpa [assemble] using i3⟩

/-- C9: a record whose fetched text is non-empty but whose first line does
not start with the FASTA marker is still a success: it takes the next
internal ID, joins the success list (hence gets a metadata row), and its
lines are appended to the sequence output unrewritten — the
internal-ID/polymer-ID prefix is only embedded when the first line starts
with the marker. -/
theorem headerless_fasta_kept :
    ∀ (st : AsmState) (e : EnzymeRecord) (fasta : String),
      fasta ≠ "" →
      pyStartsWith ((pySplitlines fasta).headD "") ">" = false →
      processEnzyme st (e, fasta) =
        { successful := st.successful ++ [⟨e, st.counter, joinWith nl (pySplitlines fasta)⟩]
          missing := st.missing
          counter := st.counter + 1
          seqOut := st.seqOut ++ joinWith nl (pySplitlines fasta) ++ nl } := by
  intro st e fasta h1 h2
  have hrw : rewriteLines st.counter e.polymer_id (pySplitlines fasta)
      = pySplitlines fasta := by
    cases hl : pySplitlines fasta with
    | nil => rfl
    | cons l0 rest =>
      rw [hl, List.headD_cons] at h2
      simp [rewriteLines, h2]
  simp [processEnzyme, h1, hrw]

/-- C9 witness: a two-line fetched text with no leading marker is kept
verbatim and still assigned internal ID 1. -/
theorem headerless_fasta_kept_witness :
    processEnzyme ⟨[], 0, 1, ""⟩ (mkEnz "e1", "MKVI\nAALT") =
      { successful := [] ++ [⟨mkEnz "e1", 1, joinWith nl (pySplitlines "MKVI\nAALT")⟩]
        missing := 0
        counter := 1 + 1
        seqOut := "" ++ joinWith nl (pySplitlines "MKVI\nAALT") ++ nl } :=
  headerless_fasta_kept ⟨[], 0, 1, ""⟩ (mkEnz "e1") "MKVI\nAALT" (by decide) (by decide)

/-! ### Lookup-structure lemmas -/

/-- Appending to a bucket changes exactly that bucket, at its end. -/
theorem getBucket_addToBucket (L : Lookup) (k : String) (e : RefEntry) (k' : String) :
    getBucket (addToBucket L k e) k' =
      if k' = k then getBucket L k' ++ [e] else getBucket L k' := by
  induction L with
  | nil =>
    by_cases h : k' = k
    · subst h
      simp [addToBucket, getBucket]
    · have hb : (k == k') = false := beq_eq_false_iff_ne.mpr fun hh => h hh.symm
      simp [addToBucket, getBucket, List.find?_cons, hb, h]
  | cons p rest ih =>
    by_cases hp : p.1 = k
    · have hbp : (p.1 == k) = true := beq_iff_eq.mpr hp
      by_cases h : k' = k
      · subst h
        have hb : (p.1 == k') = true := beq_iff_eq.mpr hp
        simp [addToBucket, getBucket, List.find?_cons, hbp, hb]
      · have hb : (p.1 == k') = false :=
          beq_eq_false_iff_ne.mpr fun hh => h (hh.symm.trans hp)
        simp [addToBucket, getBucket, List.find?_cons, hbp, hb, h]
    · have hbp : (p.1 == k) = false := beq_eq_false_iff_ne.mpr hp
      by_cases hk' : p.1 = k'
      · have hne : ¬ k' = k := fun hh => hp (hk'.trans hh)
        have hb : (p.1 == k') = true := beq_iff_eq.mpr hk'
        simp [addToBucket, getBucket, List.find?_cons, hbp, hb, hne]
      · have hb : (p.1 == k') = false := beq_eq_false_iff_ne.mpr hk'
        rw [show addToBucket (p :: rest) k e = p :: addToBucket rest k e from by
          simp [addToBucket, hbp]]
        rw [show getBucket (p :: addToBucket rest k e) k'
              = getBucket (addToBucket rest k e) k' from by
          simp [getBucket, List.find?_cons, hb]]
        rw [show getBucket (p :: rest) k' = getBucket rest k' from by
          simp [getBucket, List.find?_cons, hb]]
        exact ih

/-- Appending to a bucket makes its key present and keeps other keys as
they were. -/
theorem hasKey_addToBucket (L : Lookup) (k : String) (e : RefEntry) (k' : String) :
    hasKey (addToBucket L k e) k' = (k' == k || hasKey L k') := by
  induction L with
  | nil =>
    by_cases h : k' = k
    · subst h
      simp [addToBucket, hasKey]
    · have hb : (k == k') = false := beq_eq_false_iff_ne.mpr fun hh => h hh.symm
      have hb' : (k' == k) = false := beq_eq_false_iff_ne.mpr h
      simp [addToBucket, hasKey, List.find?_cons, hb, hb']
  | cons p rest ih =>
    by_cases hp : p.1 = k
    · have hbp : (p.1 == k) = true := beq_iff_eq.mpr hp
      by_cases h : k' = k
      · subst h
        have hb : (p.1 == k') = true := beq_iff_eq.mpr hp
        simp [addToBucket, hasKey, List.find?_cons, hbp, hb]
      · have hb : (p.1 == k') = false :=
          beq_eq_false_iff_ne.mpr fun hh => h (hh.symm.trans hp)
        have hb' : (k' == k) = false := beq_eq_false_iff_ne.mpr h
        simp [addToBucket, hasKey, List.find?_cons, hbp, hb, hb']
    · have hbp : (p.1 == k) = false := beq_eq_false_iff_ne.mpr hp
      by_cases hk' : p.1 = k'
      · have hb : (p.1 == k') = true := beq_iff_eq.mpr hk'
        simp [addToBucket, hasKey, List.find?_cons, hbp, hb]
      · have hb : (p.1 == k') = false := beq_eq_false_iff_ne.mpr hk'
        rw [show addToBucket (p :: rest) k e = p :: addToBucket rest k e from by
          simp [addToBucket, hbp]]
        rw [show hasKey (p :: addToBucket rest k e) k'
              = hasKey (addToBucket rest k e) k' from by
          simp [hasKey, List.find?_cons, hb]]
        rw [show hasKey (p :: rest) k' = hasKey rest k' from by
          simp [hasKey, List.find?_cons, hb]]
        exact ih

/-- A key that is absent reads as an empty bucket. -/
theorem getBucket_of_not_hasKey (L : Lookup) (k : String) (h : hasKey L k = false) :
    getBucket L k = [] := by
  unfold hasKey at h
  unfold getBucket
  cases hf : L.find? fun p => p.1 == k with
  | none => rfl
  | some p => rw [hf] at h; simp at h

/-- The entry built for a record always has the shape its build flag
dictates. -/
theorem matchesFlag_entryOf (v : Bool) (r : FastaRec) (s : String) :
    matchesFlag v (entryOf v r s) = true := by
  cases v <;> simp [entryOf, matchesFlag]

/-- Every bucket entry produced by the builder loop has the shape of the
`verify_exact` flag it ran under, provided the starting lookup does. -/
theorem create_buckets_wf (hash : String → String) (v nd : Bool) :
    ∀ (refs : List FastaRec) (acc : Lookup × Nat),
      (∀ k e, e ∈ getBucket acc.1 k → matchesFlag v e = true) →
      ∀ k e, e ∈ getBucket (refs.foldl (lookupStep hash v nd) acc).1 k →
        matchesFlag v e = true := by
  intro refs
  induction refs with
  | nil => intro acc h; simpa using h
  | cons r rest ih =>
    intro acc hacc
    simp only [List.foldl_cons]
    apply ih
    intro k e he
    simp only [lookupStep] at he
    by_cases hd : (nd && hasKey acc.1 (hash (pyUpper r.seq))) = true
    · rw [if_pos hd] at he
      exact hacc k e he
    · rw [if_neg hd] at he
      rw [getBucket_addToBucket] at he
      by_cases hk : k = hash (pyUpper r.seq)
      · rw [if_pos hk] at he
        rcases List.mem_append.mp he with h1 | h2
        · exact hacc k e h1
        · have : e = entryOf v r (pyUpper r.seq) := by simpa using h2
          rw [this]
          exact matchesFlag_entryOf v r (pyUpper r.seq)
      · rw [if_neg hk] at he
        exact hacc k e he

/-- Starting from the empty lookup, every bucket entry of the built index
has the shape of the build flag. -/
theorem create_wf (hash : String → String) (v nd : Bool) (refs : List FastaRec) :
    ∀ k e, e ∈ getBucket (create_plasticdb_lookup hash v nd refs).1 k →
      matchesFlag v e = true :=
  create_buckets_wf hash v nd refs ([], 0) (by
    intro k e he
    simp [getBucket] at he)

/-- On a bucket whose entries all match the flag, the candidate loop raises
no unpacking error and emits exactly the spec rows. -/
theorem processBucket_spec (v : Bool) (qid qd qs : String) :
    ∀ entries : List RefEntry, (∀ e ∈ entries, matchesFlag v e = true) →
      processBucket v qid qd qs entries = some (bucketRowsSpec v qid qd qs entries) := by
  intro entries
  induction entries with
  | nil => intro _; cases v <;> simp [processBucket, bucketRowsSpec]
  | cons e rest ih =>
    intro h
    have he := h e (List.mem_cons_self e rest)
    have hrest := ih fun x hx => h x (List.mem_cons_of_mem e hx)
    cases v with
    | false =>
      cases e with
      | short pid pdesc plen =>
        simp [processBucket, bucketRowsSpec, rowFor, hrest]
      | long pid pdesc plen pseq => simp [matchesFlag] at he
    | true =>
      cases e with
      | short pid pdesc plen => simp [matchesFlag] at he
      | long pid pdesc plen pseq =>
        by_cases hq : qs = pseq
        · subst hq
          simp [processBucket, bucketRowsSpec, hrest]
        · simp [processBucket, bucketRowsSpec, hq, hrest]

/-- On a lookup whose buckets all match the flag, the matching phase never
fails and returns exactly the spec row stream. -/
theorem find_matches_spec (hash : String → String) (L : Lookup) (v : Bool)
    (hwf : ∀ k e, e ∈ getBucket L k → matchesFlag v e = true) :
    ∀ queries : List FastaRec,
      find_matches_in_pazy hash L v queries = some (matchRowsSpec hash L v queries) := by
  intro queries
  induction queries with
  | nil => simp [find_matches_in_pazy, matchRowsSpec]
  | cons q rest ih =>
    by_cases hk : hasKey L (hash (pyUpper q.seq)) = true
    · have hpb := processBucket_spec v q.id q.description (pyUpper q.seq)
        (getBucket L (hash (pyUpper q.seq))) fun e he => hwf _ e he
      simp [find_matches_in_pazy, matchRowsSpec, hk, hpb, ih]
    · simp [find_matches_in_pazy, matchRowsSpec, hk, ih]

/-! ### Dedup invariant of the index builder -/

/-- In dedup mode, a bucket of the built index holds what the starting
lookup held for its key, or else exactly the entry of the first streamed
record hashing to it. -/
theorem create_true_bucket (hash : String → String) (v : Bool) :
    ∀ (refs : List FastaRec) (L : Lookup) (d : Nat) (k : String),
      getBucket ((refs.foldl (lookupStep hash v true) (L, d)).1) k =
        (if hasKey L k = true then getBucket L k
         else
           match refs.find? (fun r => hash (pyUpper r.seq) == k) with
           | some r => [entryOf v r (pyUpper r.seq)]
           | none => []) := by
  intro refs
  induction refs with
  | nil =>
    intro L d k
    by_cases h : hasKey L k = true
    · simp [h]
    · simp [h, getBucket_of_not_hasKey L k (by simpa using h)]
  | cons r rest ih =>
    intro L d k
    simp only [List.foldl_cons, lookupStep]
    by_cases hd : hasKey L (hash (pyUpper r.seq)) = true
    · rw [if_pos (by simp [hd])]
      rw [ih L (d + 1) k]
      by_cases h : hasKey L k = true
      · simp [h]
      · have hne : (hash (pyUpper r.seq) == k) = false := by
          apply beq_eq_false_iff_ne.mpr
          intro hh
          rw [hh] at hd
          exact h hd
        rw [List.find?_cons_of_neg _ (by simpa using hne)]
    · rw [if_neg (by simp [hd])]
      rw [ih (addToBucket L (hash (pyUpper r.seq)) (entryOf v r (pyUpper r.seq))) d k]
      by_cases hkk : k = hash (pyUpper r.seq)
      · have hkey : hasKey (addToBucket L (hash (pyUpper r.seq))
            (entryOf v r (pyUpper r.seq))) k = true := by
          rw [hasKey_addToBucket]
          simp [hkk]
        rw [if_pos hkey, getBucket_addToBucket, if_pos hkk,
          getBucket_of_not_hasKey L k (by rw [hkk]; simpa using hd)]
        have hfind : (hash (pyUpper r.seq) == k) = true := beq_iff_eq.mpr hkk.symm
        rw [show hasKey L k = false by rw [hkk]; simpa using hd]
        rw [List.find?_cons_of_pos _ (by simpa using hfind)]
        simp
      · have hkey : hasKey (addToBucket L (hash (pyUpper r.seq))
            (entryOf v r (pyUpper r.seq))) k = hasKey L k := by
          rw [hasKey_addToBucket]
          simp [beq_eq_false_iff_ne.mpr hkk]
        rw [hkey, getBucket_addToBucket, if_neg hkk]
        have hne : (hash (pyUpper r.seq) == k) = false :=
          beq_eq_false_iff_ne.mpr fun hh => hkk hh.symm
        by_cases h : hasKey L k = true
        · simp [h]
        · rw [List.find?_cons_of_neg _ (by simpa using hne)]

/-- In dedup mode, the duplicate counter counts exactly the records whose
digest was already present when they streamed by. -/
theorem create_dup_count (hash : String → String) (v : Bool) :
    ∀ (refs : List FastaRec) (L : Lookup) (d : Nat) (seen : List String),
      (∀ k, hasKey L k = seen.contains k) →
      (refs.foldl (lookupStep hash v true) (L, d)).2 = d + dupCountSpec hash refs seen := by
  intro refs
  induction refs with
  | nil => intro L d seen _; simp [dupCountSpec]
  | cons r rest ih =>
    intro L d seen hseen
    simp only [List.foldl_cons, lookupStep, dupCountSpec]
    by_cases hd : hasKey L (hash (pyUpper r.seq)) = true
    · have hc : seen.contains (hash (pyUpper r.seq)) = true := by
        rw [← hseen]; exact hd
      rw [if_pos (by simp [hd]), hc]
      rw [ih L (d + 1) seen hseen]
      simp
      omega
    · have hc : seen.contains (hash (pyUpper r.seq)) = false := by
        rw [← hseen]; simpa using hd
      rw [if_neg (by simp [hd]), hc]
      rw [ih (addToBucket L (hash (pyUpper r.seq)) (entryOf v r (pyUpper r.seq))) d
        ((hash (pyUpper r.seq)) :: seen) ?_]
      · simp
      · intro k
        rw [hasKey_addToBucket, List.contains_cons, hseen k]

/-- In append mode, a bucket of the built index extends what the starting
lookup held with the entries of all records hashing to its key, in stream
order. -/
theorem create_false_bucket (hash : String → String) (v : Bool) :
    ∀ (refs : List FastaRec) (L : Lookup) (d : Nat) (k : String),
      getBucket ((refs.foldl (lookupStep hash v false) (L, d)).1) k =
        getBucket L k ++ ((refs.filter fun r => hash (pyUpper r.seq) == k).map
          fun r => entryOf v r (pyUpper r.seq)) := by
  intro refs
  induction refs with
  | nil => intro L d k; simp
  | cons r rest ih =>
    intro L d k
    simp only [List.foldl_cons, lookupStep, Bool.false_and, Bool.false_eq_true,
      if_false, List.filter_cons]
    rw [ih (addToBucket L (hash (pyUpper r.seq)) (entryOf v r (pyUpper r.seq))) d k]
    rw [getBucket_addToBucket]
    by_cases hkk : k = hash (pyUpper r.seq)
    · have hb : (hash (pyUpper r.seq) == k) = true := beq_iff_eq.mpr hkk.symm
      rw [if_pos hkk, hb]
      simp
    · have hb : (hash (pyUpper r.seq) == k) = false :=
        beq_eq_false_iff_ne.mpr fun hh => hkk hh.symm
      rw [if_neg hkk, hb]
      simp

/-! ### Claims about the cross-reference tool -/

/-- C3: against an index built with any flags, the matching phase emits —
per query, in bucket order — one row per bucket entry when `verifyExact` is
off, and one row per bucket entry whose stored raw sequence equals the
uppercased query sequence when it is on; an absent digest contributes zero
rows. Concretely, under a digest collision (a length hash), a
content-differing bucket entry yields zero rows with verification on and
one row with it off. -/
theorem match_engine_rows :
    (∀ (hash : String → String) (v nd : Bool) (refs queries : List FastaRec),
        find_matches_in_pazy hash (create_plasticdb_lookup hash v nd refs).1 v queries
          = some (matchRowsSpec hash (create_plasticdb_lookup hash v nd refs).1 v queries)) ∧
    find_matches_in_pazy (fun s => toString s.length)
        (create_plasticdb_lookup (fun s => toString s.length) true false
          [⟨"R1", "R1", "AAAK"⟩]).1 true [⟨"Q1", "Q1", "AAAA"⟩] = some [] ∧
    find_matches_in_pazy (fun s => toString s.length)
        (create_plasticdb_lookup (fun s => toString s.length) false false
          [⟨"R1", "R1", "AAAK"⟩]).1 false [⟨"Q1", "Q1", "AAAA"⟩]
      = some [⟨"Q1", "Q1", "R1", "R1", 4⟩] := by
  refine ⟨?_, by decide, by decide⟩
  intro hash v nd refs queries
  exact find_matches_spec hash _ v (create_wf hash v nd refs) queries

/-- C4: with duplicate suppression on, every bucket of the built index is
the singleton of the first streamed record hashing to its key, and the
duplicate counter counts exactly the records skipped because their digest
was already present; with suppression off, a bucket holds the entries of
all records hashing to its key, in insertion order. -/
theorem lookup_dedup_invariant :
    (∀ (hash : String → String) (v : Bool) (refs : List FastaRec) (k : String),
        getBucket (create_plasticdb_lookup hash v true refs).1 k =
          (match refs.find? (fun r => hash (pyUpper r.seq) == k) with
           | some r => [entryOf v r (pyUpper r.seq)]
           | none => [])) ∧
    (∀ (hash : String → String) (v : Bool) (refs : List FastaRec),
        (create_plasticdb_lookup hash v true refs).2 = dupCountSpec hash refs []) ∧
    (∀ (hash : String → String) (v : Bool) (refs : List FastaRec) (k : String),
        getBucket (create_plasticdb_lookup hash v false refs).1 k =
          (refs.filter fun r => hash (pyUpper r.seq) == k).map
            fun r => entryOf v r (pyUpper r.seq)) := by
  refine ⟨?_, ?_, ?_⟩
  · intro hash v refs k
    have h := create_true_bucket hash v refs [] 0 k
    simpa [create_plasticdb_lookup, hasKey] using h
  · intro hash v refs
    have h := create_dup_count hash v refs [] 0 [] fun k => by simp [hasKey]
    simpa [create_plasticdb_lookup] using h
  · intro hash v refs k
    have h := create_false_bucket hash v refs [] 0 k
    simpa [create_plasticdb_lookup, getBucket] using h

/-- C8: with the reference collection R1:AAAA, R2:AAAA, R3:CCCC, no
duplicate suppression, and the query Q1:AAAA, the output is exactly two
rows — Q1 against R1 and Q1 against R2 — each of sequence length 4, for any
digest function separating AAAA from CCCC (as MD5 does). -/
theorem end_to_end_crossref :
    ∀ hash : String → String, hash "AAAA" ≠ hash "CCCC" →
      crossref_main hash false false
          [⟨"R1", "R1", "AAAA"⟩, ⟨"R2", "R2", "AAAA"⟩, ⟨"R3", "R3", "CCCC"⟩]
          [⟨"Q1", "Q1", "AAAA"⟩]
        = some [⟨"Q1", "Q1", "R1", "R1", 4⟩, ⟨"Q1", "Q1", "R2", "R2", 4⟩] := by
  intro hash hne
  have hup1 : pyUpper "AAAA" = "AAAA" := by decide
  have hup2 : pyUpper "CCCC" = "CCCC" := by decide
  have hlen1 : ("AAAA" : String).length = 4 := by decide
  have hlen2 : ("CCCC" : String).length = 4 := by decide
  have hb : (hash "AAAA" == hash "CCCC") = false := beq_eq_false_iff_ne.mpr hne
  have hb' : (hash "CCCC" == hash "AAAA") = false :=
    beq_eq_false_iff_ne.mpr (Ne.symm hne)
  simp [crossref_main, create_plasticdb_lookup, lookupStep, find_matches_in_pazy,
    processBucket, addToBucket, hasKey, getBucket, entryOf, List.find?_cons,
    hup1, hup2, hlen1, hlen2, hb, hb']

/-- C8 witness: the end-to-end scenario run with the identity digest, which
separates AAAA from CCCC. -/
theorem end_to_end_crossref_witness :
    crossref_main (fun s => s) false false
        [⟨"R1", "R1", "AAAA"⟩, ⟨"R2", "R2", "AAAA"⟩, ⟨"R3", "R3", "CCCC"⟩]
        [⟨"Q1", "Q1", "AAAA"⟩]
      = some [⟨"Q1", "Q1", "R1", "R1", 4⟩, ⟨"Q1", "Q1", "R2", "R2", 4⟩] :=
  end_to_end_crossref (fun s => s) (by decide)

/-- C10: a bucket entry is a 4-tuple exactly when the index was built with
`verifyExact` on, the matching phase unpacks by the flag it is given and
fails on a mismatched shape (a lookup built with the opposite flag can make
it raise, modelled as `none`), and the driver hands the same flag to both
phases, under which the unpacking never fails. -/
theorem tuple_shape_safety :
    (∀ (hash : String → String) (v nd : Bool) (refs queries : List FastaRec),
        (crossref_main hash v nd refs queries).isSome = true) ∧
    find_matches_in_pazy (fun s => s)
        (create_plasticdb_lookup (fun s => s) true false [⟨"R1", "R1", "AAAA"⟩]).1
        false [⟨"Q1", "Q1", "AAAA"⟩] = none ∧
    find_matches_in_pazy (fun s => s)
        (create_plasticdb_lookup (fun s => s) false false [⟨"R1", "R1", "AAAA"⟩]).1
        true [⟨"Q1", "Q1", "AAAA"⟩] = none := by
  refine ⟨?_, by decide, by decide⟩
  intro hash v nd refs queries
  rw [show crossref_main hash v nd refs queries
      = find_matches_in_pazy hash (create_plasticdb_lookup hash v nd refs).1 v queries
    from rfl]
  rw [find_matches_spec hash _ v (create_wf hash v nd refs) queries]
  rfl

end PAZy
